import Mathlib

/-!
Shallow embedding of the bitmask-based Sudoku elimination engine
(`src/lib.rs`): the 81-bit `Mask` (stored in a 96-bit `u32×3` array,
observed through an 81-bit deref window), per-digit `Layer`s, the
`Puzzle` with its `update`/`parse`/`solve`/`readout` operations, and the
three `Segment` variants (`Row`, `Column`, `Cell`) with
`count_layer_positions`, `is_layer_solved`, `count_open`, `locate` and
`iterate`.

Conventions of the embedding:
* machine integers become `Nat`; the `BitArr!(for 81, in u32)` storage is
  a `Nat` truncated with `% 2^96`, and the `Deref` view `[..81]` is
  `% 2^81` (`Mask.view`);
* `bitvec`'s `shift_right` moves bits towards higher indices, i.e. it is
  multiplication by `2^shamt` followed by storage truncation;
* fallible operations (`Result`/`unwrap`/`expect`, i.e. panics) become
  `Except`/`Option`, with `none` standing for a panic;
* the unconditional `while` loop of `solve` becomes a fuel-indexed loop
  returning `none` when the fuel runs out before the puzzle is solved.
-/

set_option maxRecDepth 20000

def SUDOKU_L : Nat := 9
def SUDOKU_C : Nat := 3
def SUDOKU_A : Nat := 81

/-- Width (in bits) of the `BitArr!(for 81, in u32)` backing storage:
three `u32` words. -/
def STORAGE : Nat := 96

/-- An 81-bit mask, as in `struct Mask { bits: BitArr!(for 81, in u32) }`.
`bits` is the raw 96-bit storage. -/
structure Mask where
  bits : Nat
deriving DecidableEq

/-- The `Deref` impl: `&self.bits[..SUDOKU_A]`, i.e. the 81-bit window of
the storage that every observation (`count_ones`, `iter_ones`,
`first_zero`, `&=`, `|=`, `set`) goes through. -/
def Mask.view (m : Mask) : Nat := m.bits % 2 ^ SUDOKU_A

/-- The literal bit pattern of `Mask::cell` before shifting: a 3×3 block
of ones at the top-left corner (bits 0,1,2, 9,10,11, 18,19,20). -/
def cellPattern : Nat := 7 + 7 * 2 ^ 9 + 7 * 2 ^ 18

/-- The literal bit pattern of `Mask::row` before shifting: nine ones at
bits 0..8. -/
def rowPattern : Nat := 511

/-- The literal bit pattern of `Mask::column` before shifting: one bit at
the start of each of the nine rows (bits 0,9,18,...,72). -/
def colPattern : Nat :=
  1 + 2 ^ 9 + 2 ^ 18 + 2 ^ 27 + 2 ^ 36 + 2 ^ 45 + 2 ^ 54 + 2 ^ 63 + 2 ^ 72

/-- The assertion guarding `Mask::cell`:
`assert!(index < SUDOKU_A as u32 && index % SUDOKU_L < 7)`. -/
abbrev Mask.cellPre (index : Nat) : Prop := index < SUDOKU_A ∧ index % SUDOKU_L < 7

/-- The assertion guarding `Mask::row`: `assert!(index % SUDOKU_L == 0)`. -/
abbrev Mask.rowPre (index : Nat) : Prop := index % SUDOKU_L = 0

/-- The assertion guarding `Mask::column`: `assert!(index < SUDOKU_L)`. -/
abbrev Mask.columnPre (index : Nat) : Prop := index < SUDOKU_L

/-- `Mask::new()`: the all-zero mask. -/
def Mask.new : Mask := ⟨0⟩

/-- `Mask::cell(index)`: the top-left 3×3 pattern shifted right (towards
higher bit indices) by `index`, truncated to the 96-bit storage. The
assertion is modelled separately as `Mask.cellPre`. -/
def Mask.cell (index : Nat) : Mask := ⟨cellPattern * 2 ^ index % 2 ^ STORAGE⟩

/-- `Mask::row(index)`: the nine-ones row pattern shifted right by
`index`, truncated to the 96-bit storage. Assertion: `Mask.rowPre`. -/
def Mask.row (index : Nat) : Mask := ⟨rowPattern * 2 ^ index % 2 ^ STORAGE⟩

/-- `Mask::column(index)`: the one-bit-per-row column pattern shifted
right by `index`, truncated to the 96-bit storage. Assertion:
`Mask.columnPre`. -/
def Mask.column (index : Nat) : Mask := ⟨colPattern * 2 ^ index % 2 ^ STORAGE⟩

/-- `count_ones()` on the dereferenced (81-bit) view of a mask value:
the number of set bits among bits `0..80`. -/
def count81 (n : Nat) : Nat := ((List.range SUDOKU_A).filter (fun j => n.testBit j)).length

/-- `iter_ones()` on the dereferenced (81-bit) view of a mask value: the
ascending list of set-bit positions among bits `0..80`. -/
def onesList (n : Nat) : List Nat := (List.range SUDOKU_A).filter (fun j => n.testBit j)

/-- `struct Layer { indices: Vec<u32>, mask: Mask, value: u32 }`. -/
structure Layer where
  indices : List Nat
  mask : Mask
  value : Nat
deriving DecidableEq

/-- `Layer::new(value)`. -/
def Layer.new (value : Nat) : Layer := ⟨[], Mask.new, value⟩

/-- `Layer::blot(index)`: `self.mask.set(index as usize, true)` (through
the 81-bit deref view; in-range `index < 81` is a precondition of the
slice access, out-of-range would panic). -/
def Layer.blot (l : Layer) (index : Nat) : Layer :=
  { l with mask := ⟨l.mask.bits ||| 2 ^ index⟩ }

/-- The argument `Layer::occupy` passes to `Mask::cell`:
`SUDOKU_C*SUDOKU_L * (index / (SUDOKU_C*SUDOKU_L)) + SUDOKU_C*((index % SUDOKU_L) / SUDOKU_C)`. -/
def occupyCellArg (index : Nat) : Nat :=
  SUDOKU_C * SUDOKU_L * (index / (SUDOKU_C * SUDOKU_L)) + SUDOKU_C * ((index % SUDOKU_L) / SUDOKU_C)

/-- The argument `Layer::occupy` passes to `Mask::row`:
`SUDOKU_L*(index / SUDOKU_L)`. -/
def occupyRowArg (index : Nat) : Nat := SUDOKU_L * (index / SUDOKU_L)

/-- The argument `Layer::occupy` passes to `Mask::column`:
`index % SUDOKU_L`. -/
def occupyColArg (index : Nat) : Nat := index % SUDOKU_L

/-- `Layer::occupy(index)`: or the block, row and column masks covering
`index` into `blockedPositions` (each `*self.mask |= mask.bits` goes
through the 81-bit deref slice, hence the `% 2^81` truncation of the
source), then push `index` onto `indices`. -/
def Layer.occupy (l : Layer) (index : Nat) : Layer :=
  { l with
    mask := ⟨l.mask.bits
      ||| (Mask.cell (occupyCellArg index)).bits % 2 ^ SUDOKU_A
      ||| (Mask.row (occupyRowArg index)).bits % 2 ^ SUDOKU_A
      ||| (Mask.column (occupyColArg index)).bits % 2 ^ SUDOKU_A⟩,
    indices := l.indices ++ [index] }

/-- `Layer::is_solved()`: `indices.len() == SUDOKU_L`. -/
def Layer.is_solved (l : Layer) : Bool := l.indices.length == SUDOKU_L

/-- `struct Puzzle { layers: [Layer; 9] }` (values 1..9 in order). -/
structure Puzzle where
  layers : List Layer
deriving DecidableEq

/-- The nine freshly constructed layers `(1..=SUDOKU_L).map(Layer::new)`. -/
def freshLayers : List Layer := (List.range SUDOKU_L).map (fun k => Layer.new (k + 1))

/-- A puzzle straight out of construction, before any placement. -/
def freshPuzzle : Puzzle := ⟨freshLayers⟩

/-- The shared per-position body of `Puzzle::parse` and `Puzzle::update`:
the layer matching `value` calls `occupy(index)`, every other layer calls
`blot(index)`. -/
def placeAll (layers : List Layer) (value index : Nat) : List Layer :=
  layers.map (fun layer => if layer.value = value then layer.occupy index else layer.blot index)

/-- `Puzzle::update(value, index)`. -/
def Puzzle.update (p : Puzzle) (value index : Nat) : Puzzle :=
  ⟨placeAll p.layers value index⟩

/-- `char::to_digit(10)`: `some` exactly for ASCII `'0'..'9'`. -/
def charToDigit? (c : Char) : Option Nat :=
  if 48 ≤ c.toNat ∧ c.toNat ≤ 57 then some (c.toNat - 48) else none

/-- `Puzzle::parse(feed)`: map every character through
`to_digit(10).unwrap()` (a non-digit panics, modelled as `none`),
enumerate, drop zeros, and for each remaining `(index, value)` run the
occupy/blot dispatch over the nine fresh layers. -/
def Puzzle.parse (feed : String) : Option Puzzle :=
  (feed.toList.mapM charToDigit?).map (fun digits =>
    ⟨((digits.enum.filter (fun q => q.2 != 0))).foldl
        (fun ls q => placeAll ls q.2 q.1) freshLayers⟩)

/-- `Puzzle::is_solved()`: every layer solved. -/
def Puzzle.is_solved (p : Puzzle) : Bool := p.layers.all Layer.is_solved

/-- The insertion-order-respecting `(index, value)` pair list that
`Puzzle::readout` feeds into its `HashMap` (`flat_map` over the layers in
value order, each layer's indices in insertion order). -/
def Puzzle.positionsList (p : Puzzle) : List (Nat × Nat) :=
  p.layers.foldr (fun layer acc => layer.indices.map (fun i => (i, layer.value)) ++ acc) []

/-- `HashMap` collection semantics for the pair list: for a key occurring
several times, the last inserted value wins. -/
def lookupLast (l : List (Nat × Nat)) (k : Nat) : Option Nat :=
  l.foldl (fun acc e => if e.1 = k then some e.2 else acc) none

/-- `Puzzle::readout()`: start from 81 `'0'` characters and write each
placed digit at its position. -/
def Puzzle.readout (p : Puzzle) : List Char :=
  (List.range SUDOKU_A).map (fun i =>
    match lookupLast p.positionsList i with
    | some v => Char.ofNat (48 + v)
    | none => Char.ofNat 48)

/-- The tagged union of the three `Segment` implementations, each
carrying its identifying `index` field. -/
inductive Seg : Type where
  | row : Nat → Seg
  | column : Nat → Seg
  | cell : Nat → Seg
deriving DecidableEq

/-- `Row::new(row)` (assert `1 <= row <= 9`): stores `SUDOKU_L*(row-1)`. -/
def Row.new (r : Nat) : Seg := Seg.row (SUDOKU_L * (r - 1))

/-- `Column::new(column)` (assert `1 <= column <= 9`): stores `column-1`. -/
def Column.new (c : Nat) : Seg := Seg.column (c - 1)

/-- `Cell::new(i, j)` (assert `1 <= i,j <= 3`): stores
`SUDOKU_C*SUDOKU_L*(i-1) + SUDOKU_C*(j-1)`. -/
def Cell.new (i j : Nat) : Seg :=
  Seg.cell (SUDOKU_C * SUDOKU_L * (i - 1) + SUDOKU_C * (j - 1))

/-- `count_layer_positions(layer)` for each variant, byte-for-byte from
the source filters (note the `Row` variant multiplies its stored start
index by `SUDOKU_L` again). -/
def Seg.count_layer_positions : Seg → Layer → Nat
  | Seg.row index, layer =>
    (layer.indices.filter (fun i =>
      decide (SUDOKU_L * index ≤ i) && decide (i < SUDOKU_L * (index + 1)))).length
  | Seg.column index, layer =>
    (layer.indices.filter (fun i => i % SUDOKU_L == index)).length
  | Seg.cell index, layer =>
    (layer.indices.filter (fun i =>
      if index ≤ i ∧ i < index + (SUDOKU_C - 1) * SUDOKU_L + SUDOKU_C then
        decide ((i - index) % SUDOKU_L < SUDOKU_C)
      else false)).length

/-- `locate(layer)` for each variant. The intersection is taken on the
81-bit deref views (`*shape_mask &= &*layer.mask`). In the `Row` case
`first_zero().unwrap()` over the window `[s..s+9)` is modelled by
`findIdx` over the nine window offsets (under the popcount-8 guard the
zero bit exists, so the `unwrap` cannot panic). -/
def Seg.locate : Seg → Layer → Option Nat
  | Seg.row index, layer =>
    let inter := (Mask.row index).view &&& layer.mask.view
    if count81 inter == 8 then
      some ((List.range SUDOKU_L).findIdx (fun k => !(inter.testBit (index + k))) + index)
    else none
  | Seg.column index, layer =>
    let inter := (Mask.column index).view &&& layer.mask.view
    if count81 inter == 8 then
      let l := ((onesList inter).enum.takeWhile
        (fun q => index + SUDOKU_L * q.1 == q.2)).getLast?
      some (match l with
        | some q => q.2 + SUDOKU_L
        | none => index)
    else none
  | Seg.cell index, layer =>
    let inter := (Mask.cell index).view &&& layer.mask.view
    if count81 inter == 8 then
      let l := ((onesList inter).enum.takeWhile
        (fun q => index + SUDOKU_L * (q.1 / SUDOKU_C) + q.1 % SUDOKU_C == q.2)).getLast?
      some (match l with
        | some q => index + SUDOKU_L * ((q.1 + 1) / SUDOKU_C) + (q.1 + 1) % SUDOKU_C
        | none => index)
    else none

/-- `is_layer_solved(layer)`: 0 placements → not solved, 1 → solved,
more → `CorruptLayerError { value }`. -/
def Seg.is_layer_solved (s : Seg) (layer : Layer) : Except Nat Bool :=
  match s.count_layer_positions layer with
  | 0 => Except.ok false
  | 1 => Except.ok true
  | _ => Except.error layer.value

/-- The loop behind `count_open`: count the layers whose
`is_layer_solved` unwraps to `true`; an `Err` makes the `unwrap` panic
(`none`). -/
def countSolved (s : Seg) : List Layer → Nat → Option Nat
  | [], acc => some acc
  | layer :: rest, acc =>
    match s.is_layer_solved layer with
    | Except.error _ => none
    | Except.ok true => countSolved s rest (acc + 1)
    | Except.ok false => countSolved s rest acc

/-- `count_open(puzzle)`: `SUDOKU_L` minus the number of solved layers. -/
def Seg.count_open (s : Seg) (p : Puzzle) : Option Nat :=
  (countSolved s p.layers 0).map (fun n => SUDOKU_L - n)

/-- The collection phase of `iterate`: walk the nine layers in order,
skip the solved ones, push `(value, index)` for every `locate` hit; an
`Err` from `is_layer_solved` makes the `expect` panic (`none`). -/
def collectFinds (s : Seg) : List Layer → List (Nat × Nat) → Option (List (Nat × Nat))
  | [], acc => some acc
  | layer :: rest, acc =>
    match s.is_layer_solved layer with
    | Except.error _ => none
    | Except.ok true => collectFinds s rest acc
    | Except.ok false =>
      match s.locate layer with
      | some i => collectFinds s rest (acc ++ [(layer.value, i)])
      | none => collectFinds s rest acc

/-- Apply a list of `(value, index)` pairs through `Puzzle::update`, in
order. -/
def applyUpdates (us : List (Nat × Nat)) (p : Puzzle) : Puzzle :=
  us.foldl (fun q vi => q.update vi.1 vi.2) p

/-- `iterate(puzzle)`: collect all finds over the state as it was on
entry, then apply every collected pair via `update`. -/
def Seg.iterate (s : Seg) (p : Puzzle) : Option Puzzle :=
  (collectFinds s p.layers []).map (fun finds => applyUpdates finds p)

/-- The 27 segments built at the top of `Puzzle::solve`, in construction
order: for each `index` in `1..=9` a `Row`, a `Column` and a `Cell`. -/
def initSegments : List Seg :=
  (List.range SUDOKU_L).foldl (fun acc k =>
    let index := k + 1
    acc ++ [Row.new index, Column.new index,
            Cell.new ((index - 1) / SUDOKU_C + 1) ((index - 1) % SUDOKU_C + 1)]) []

/-- Stable insertion of a keyed element into a keyed list sorted
ascending by key. `sortKeyed` folds from the right, so the inserted
element originally precedes everything already in the list: it must go
after every element of strictly smaller key and before any element of
equal key. Folding this over a list therefore reproduces the (unique)
result of Rust's stable `sort_by_key`: elements ordered by key, ties in
original order. -/
def insertKeyed (e : Nat × Seg) : List (Nat × Seg) → List (Nat × Seg)
  | [] => [e]
  | f :: fs => if f.1 < e.1 then f :: insertKeyed e fs else e :: f :: fs

/-- Stable ascending sort by key (the model of
`segments.sort_by_key(...)`, which is a stable sort). -/
def sortKeyed (l : List (Nat × Seg)) : List (Nat × Seg) :=
  l.foldr insertKeyed []

/-- The `retain` phase of a `solve` round: keep the segments with
`count_open(puzzle) > 0` (a panic inside `count_open` propagates). -/
def retainOpen (p : Puzzle) : List Seg → Option (List Seg)
  | [] => some []
  | s :: ss =>
    match s.count_open p with
    | none => none
    | some n =>
      match retainOpen p ss with
      | none => none
      | some rest => some (if 0 < n then s :: rest else rest)

/-- One round of the `while !self.is_solved()` body of `Puzzle::solve`:
sort the working segments ascending by `SUDOKU_L - count_open` (stable),
run `iterate` over each in sorted order (each seeing the previous ones'
updates), then retain the still-open segments. -/
def solveRound (segs : List Seg) (p : Puzzle) : Option (List Seg × Puzzle) := do
  let keyed ← segs.mapM (fun s => (s.count_open p).map (fun n => (SUDOKU_L - n, s)))
  let sorted := (sortKeyed keyed).map Prod.snd
  let p1 ← sorted.foldlM (fun q s => s.iterate q) p
  let retained ← retainOpen p1 sorted
  pure (retained, p1)

/-- `Puzzle::solve`'s loop, with explicit fuel: `some` exactly when the
loop reaches the solved state within `fuel` rounds (the Rust loop simply
never exits on a stalled puzzle). -/
def solveLoop : Nat → List Seg → Puzzle → Option Puzzle
  | 0, _, p => if p.is_solved then some p else none
  | fuel + 1, segs, p =>
    if p.is_solved then some p
    else
      match solveRound segs p with
      | none => none
      | some (segs1, p1) => solveLoop fuel segs1 p1

/-- The reference puzzle of the repository's tests. -/
def refFeed : String :=
  "029306807000702050607100002005009010000080000004610000040060080061874209708031005"

/-- The solved grid the tests expect from `solve()` on `refFeed`. -/
def refSolved : String :=
  "129356847483792156657148392875429613216583974934617528342965781561874239798231465"

/-! ### Geometry of the segments, for stating the locate claim -/

/-- The nine board positions geometrically belonging to a segment: a row
starting at `s` covers `s..s+8`, a column `c` covers `c, c+9, ..., c+72`,
a block with top-left `t` covers `t + 9*(k/3) + k%3` for `k < 9`. -/
def Seg.cells : Seg → List Nat
  | Seg.row s => (List.range 9).map (fun k => s + k)
  | Seg.column c => (List.range 9).map (fun k => c + 9 * k)
  | Seg.cell t => (List.range 9).map (fun k => t + 9 * (k / 3) + k % 3)

/-- The 81-bit view of the shape mask a segment intersects with the
layer's blocked mask inside `locate`. -/
def Seg.shapeView : Seg → Nat
  | Seg.row s => (Mask.row s).view
  | Seg.column c => (Mask.column c).view
  | Seg.cell t => (Mask.cell t).view

/-- The intersection (`*shape &= &*layer.mask`) that `locate` examines. -/
def interOf (s : Seg) (layer : Layer) : Nat := s.shapeView &&& layer.mask.view

/-- The nine window offsets minus the unique open one. -/
def rangeMinus (u : Nat) : List Nat := (List.range 9).filter (fun k => k != u)

/-- The property C2 asserts of `locate`: a hit exactly when the popcount
of the shape/blocked intersection is 8, and then the returned position is
the unique cell of the segment whose bit is unset in that intersection. -/
def locateSpec (s : Seg) (layer : Layer) : Prop :=
  (∀ p, s.locate layer = some p ↔
      (count81 (interOf s layer) = 8 ∧ p ∈ s.cells ∧
       (interOf s layer).testBit p = false ∧
       ∀ q ∈ s.cells, (interOf s layer).testBit q = false → q = p))
  ∧ (count81 (interOf s layer) ≠ 8 → s.locate layer = none)

/-- The per-layer pairs `iterate` collects, written directly from the
spec's description: for every layer not yet solved in this segment (per
`isLayerSolved`), the `(digit, index)` pair `locate` finds, all against
the same puzzle state. -/
def findsSpec (s : Seg) (p : Puzzle) : List (Nat × Nat) :=
  (p.layers.filter (fun layer =>
    match s.is_layer_solved layer with
    | Except.ok false => true
    | _ => false)).filterMap
    (fun layer => (s.locate layer).map (fun i => (layer.value, i)))

/-- How many of the nine layers record `pos` as placed. -/
def countContaining (pos : Nat) (p : Puzzle) : Nat :=
  (p.layers.filter (fun l => l.indices.contains pos)).length

/-- The `(value, index)` assignments a successful parse performs, in
order: the nonzero characters of the feed with their positions. -/
def parsePairs (feed : String) : List (Nat × Nat) :=
  ((feed.toList.map (fun c => (charToDigit? c).getD 0)).enum.filter
      (fun q => q.2 != 0)).map (fun q => (q.2, q.1))

/-- The pair block one layer contributes to `positionsList`. -/
def layerBlock (l : Layer) : List (Nat × Nat) := l.indices.map (fun i => (i, l.value))

/-- The per-layer dispatch of `update`/`parse`: occupy on the matching
layer, blot on the others (`placeAll` is its map). -/
def place (v i : Nat) (l : Layer) : Layer :=
  if l.value = v then l.occupy i else l.blot i

theorem onesList_land (a b : Nat) :
    onesList (a &&& b) = (onesList a).filter (fun j => b.testBit j) := by
  unfold onesList
  rw [List.filter_filter]
  exact List.filter_congr (fun x _ => by simp [Nat.testBit_land, Bool.and_comm])

theorem count81_eq_length (n : Nat) : count81 n = (onesList n).length := rfl

/-- In a nine-cell window with exactly eight blocked cells there is a
unique open offset. -/
theorem unique_unset (q : Nat → Bool)
    (h : ((List.range 9).filter (fun k => q k)).length = 8) :
    ∃ u, u < 9 ∧ q u = false ∧ ∀ k, k < 9 → q k = false → k = u := by
  have hlen := List.length_eq_length_filter_add (l := List.range 9) (fun k => q k)
  rw [List.length_range, h] at hlen
  have h1 : ((List.range 9).filter (fun k => !(q k))).length = 1 := by omega
  obtain ⟨u, hu⟩ := List.length_eq_one.mp h1
  have humem : u ∈ (List.range 9).filter (fun k => !(q k)) := by
    rw [hu]; exact List.mem_singleton_self u
  have hu2 := List.mem_filter.mp humem
  refine ⟨u, List.mem_range.mp hu2.1, by simpa using hu2.2, ?_⟩
  intro k hk hqk
  have hkmem : k ∈ (List.range 9).filter (fun k => !(q k)) :=
    List.mem_filter.mpr ⟨List.mem_range.mpr hk, by simp [hqk]⟩
  rw [hu] at hkmem
  simpa using hkmem

theorem findIdx_range9_unique (q : Nat → Bool) (u : Nat) (hu : u < 9)
    (hqu : q u = false) (hlt : ∀ k, k < u → q k = true) :
    (List.range 9).findIdx (fun k => !(q k)) = u := by
  rw [List.findIdx_eq (by simpa using hu)]
  constructor
  · simp [List.getElem_range, hqu]
  · intro j hj
    simp [List.getElem_range, hlt j hj]

theorem findIdx_congr {p q : Nat → Bool} (l : List Nat) (h : ∀ a ∈ l, p a = q a) :
    l.findIdx p = l.findIdx q := by
  induction l with
  | nil => rfl
  | cons a t ih =>
    rw [List.findIdx_cons, List.findIdx_cons, h a (List.mem_cons_self a t),
      ih (fun b hb => h b (List.mem_cons_of_mem a hb))]

/-- The enumerate/take-while scan of `Column::locate` and `Cell::locate`:
scanning the ones of the intersection (which are the images under the
strictly injective position map `e` of all offsets except the open one
`u`), the prefix where the enumeration index still agrees with the bit
position ends exactly before offset `u`. -/
theorem chain_takeWhile (e : Nat → Nat)
    (hinj : ∀ j k, j < 9 → k < 9 → e j = e k → j = k)
    (u : Nat) (hu : u < 9) :
    (((rangeMinus u).map e).enum.takeWhile (fun q => e q.1 == q.2)).getLast? =
      if u = 0 then none else some (u - 1, e (u - 1)) := by
  have hne : ∀ j k, j < 9 → k < 9 → j ≠ k → (e j == e k) = false := fun j k hj hk hjk =>
    beq_eq_false_iff_ne.mpr (fun h => hjk (hinj j k hj hk h))
  interval_cases u
  · rw [show rangeMinus 0 = [1, 2, 3, 4, 5, 6, 7, 8] from rfl]
    simp [List.enum, List.enumFrom, List.takeWhile_cons, hne 0 1 (by omega) (by omega) (by omega)]
  · rw [show rangeMinus 1 = [0, 2, 3, 4, 5, 6, 7, 8] from rfl]
    simp [List.enum, List.enumFrom, List.takeWhile_cons, hne 1 2 (by omega) (by omega) (by omega)]
  · rw [show rangeMinus 2 = [0, 1, 3, 4, 5, 6, 7, 8] from rfl]
    simp [List.enum, List.enumFrom, List.takeWhile_cons, hne 2 3 (by omega) (by omega) (by omega)]
  · rw [show rangeMinus 3 = [0, 1, 2, 4, 5, 6, 7, 8] from rfl]
    simp [List.enum, List.enumFrom, List.takeWhile_cons, hne 3 4 (by omega) (by omega) (by omega)]
  · rw [show rangeMinus 4 = [0, 1, 2, 3, 5, 6, 7, 8] from rfl]
    simp [List.enum, List.enumFrom, List.takeWhile_cons, hne 4 5 (by omega) (by omega) (by omega)]
  · rw [show rangeMinus 5 = [0, 1, 2, 3, 4, 6, 7, 8] from rfl]
    simp [List.enum, List.enumFrom, List.takeWhile_cons, hne 5 6 (by omega) (by omega) (by omega)]
  · rw [show rangeMinus 6 = [0, 1, 2, 3, 4, 5, 7, 8] from rfl]
    simp [List.enum, List.enumFrom, List.takeWhile_cons, hne 6 7 (by omega) (by omega) (by omega)]
  · rw [show rangeMinus 7 = [0, 1, 2, 3, 4, 5, 6, 8] from rfl]
    simp [List.enum, List.enumFrom, List.takeWhile_cons, hne 7 8 (by omega) (by omega) (by omega)]
  · rw [show rangeMinus 8 = [0, 1, 2, 3, 4, 5, 6, 7] from rfl]
    simp [List.enum, List.enumFrom, List.takeWhile_cons]


theorem rowMain (s : Nat)
    (hshape : onesList (Mask.row s).view = (Seg.row s).cells)
    (hbit : ∀ j ∈ (Seg.row s).cells, (Mask.row s).view.testBit j = true)
    (layer : Layer) : locateSpec (Seg.row s) layer := by
  have hraw : interOf (Seg.row s) layer = (Mask.row s).view &&& layer.mask.view := rfl
  have hcells : (Seg.row s).cells = (List.range 9).map (fun k => s + k) := rfl
  have hones : onesList ((Mask.row s).view &&& layer.mask.view) =
      ((Seg.row s).cells).filter (fun j => layer.mask.view.testBit j) := by
    rw [onesList_land, hshape]
  have hcount : count81 ((Mask.row s).view &&& layer.mask.view) =
      ((List.range 9).filter (fun k => layer.mask.view.testBit (s + k))).length := by
    rw [count81_eq_length, hones, hcells, List.filter_map, List.length_map]
    exact congrArg _ (List.filter_congr fun x _ => rfl)
  have htbc : ∀ j ∈ (Seg.row s).cells,
      ((Mask.row s).view &&& layer.mask.view).testBit j = layer.mask.view.testBit j := by
    intro j hj
    rw [Nat.testBit_land, hbit j hj, Bool.true_and]
  by_cases hc : count81 ((Mask.row s).view &&& layer.mask.view) = 8
  · obtain ⟨u, hu9, hqu, huniq⟩ := unique_unset _ (hcount ▸ hc)
    have hlt : ∀ k, k < u → layer.mask.view.testBit (s + k) = true := by
      intro k hk
      cases hqk : layer.mask.view.testBit (s + k) with
      | false => exact absurd (huniq k (by omega) hqk) (by omega)
      | true => rfl
    have hguard : (count81 ((Mask.row s).view &&& layer.mask.view) == 8) = true := by
      simp [hc]
    have hfind : (List.range 9).findIdx
        (fun k => !(((Mask.row s).view &&& layer.mask.view).testBit (s + k))) = u := by
      rw [findIdx_congr (List.range 9) (fun k hk => by
        rw [htbc (s + k) (by rw [hcells]; exact List.mem_map.mpr ⟨k, hk, rfl⟩)])]
      exact findIdx_range9_unique _ u hu9 hqu hlt
    have hloc : (Seg.row s).locate layer = some (u + s) := by
      simp only [Seg.locate, SUDOKU_L, hguard, if_true, hfind]
    have humem : u + s ∈ (Seg.row s).cells := by
      rw [hcells]; exact List.mem_map.mpr ⟨u, List.mem_range.mpr hu9, by omega⟩
    have hubit : ((Mask.row s).view &&& layer.mask.view).testBit (u + s) = false := by
      rw [htbc (u + s) humem, Nat.add_comm u s]; exact hqu
    constructor
    · intro p
      rw [hraw, hloc]
      constructor
      · intro hp
        have hp2 : u + s = p := by injection hp
        subst hp2
        refine ⟨hc, humem, hubit, ?_⟩
        intro q hq hqb
        obtain ⟨k, hk, rfl⟩ := List.mem_map.mp (hcells ▸ hq)
        rw [htbc (s + k) hq] at hqb
        have := huniq k (List.mem_range.mp hk) hqb
        omega
      · rintro ⟨-, hpmem, hpbit, hpuniq⟩
        rw [hpuniq (u + s) humem hubit]
    · intro h; exact absurd hc h
  · have hguard : (count81 ((Mask.row s).view &&& layer.mask.view) == 8) = false :=
      beq_eq_false_iff_ne.mpr hc
    have hloc : (Seg.row s).locate layer = none := by
      simp only [Seg.locate, SUDOKU_L, hguard, Bool.false_eq_true, if_false]
    constructor
    · intro p
      rw [hraw, hloc]
      constructor
      · intro hp; exact Option.noConfusion hp
      · rintro ⟨h8, -⟩; exact absurd h8 hc
    · intro _; exact hloc

theorem colMain (c : Nat)
    (hshape : onesList (Mask.column c).view = (Seg.column c).cells)
    (hbit : ∀ j ∈ (Seg.column c).cells, (Mask.column c).view.testBit j = true)
    (layer : Layer) : locateSpec (Seg.column c) layer := by
  have hraw : interOf (Seg.column c) layer = (Mask.column c).view &&& layer.mask.view := rfl
  have hcells : (Seg.column c).cells = (List.range 9).map (fun k => c + 9 * k) := rfl
  have hones : onesList ((Mask.column c).view &&& layer.mask.view) =
      ((List.range 9).filter (fun k => layer.mask.view.testBit (c + 9 * k))).map
        (fun k => c + 9 * k) := by
    rw [onesList_land, hshape, hcells, List.filter_map]
    exact congrArg _ (List.filter_congr fun x _ => rfl)
  have hcount : count81 ((Mask.column c).view &&& layer.mask.view) =
      ((List.range 9).filter (fun k => layer.mask.view.testBit (c + 9 * k))).length := by
    rw [count81_eq_length, hones, List.length_map]
  have htbc : ∀ j ∈ (Seg.column c).cells,
      ((Mask.column c).view &&& layer.mask.view).testBit j = layer.mask.view.testBit j := by
    intro j hj
    rw [Nat.testBit_land, hbit j hj, Bool.true_and]
  by_cases hc : count81 ((Mask.column c).view &&& layer.mask.view) = 8
  · obtain ⟨u, hu9, hqu, huniq⟩ := unique_unset _ (hcount ▸ hc)
    have hfilter : (List.range 9).filter (fun k => layer.mask.view.testBit (c + 9 * k)) =
        rangeMinus u := by
      apply List.filter_congr
      intro k hk
      have hk9 := List.mem_range.mp hk
      cases hqk : layer.mask.view.testBit (c + 9 * k) with
      | false =>
        have hek := huniq k hk9 hqk
        subst hek
        simp
      | true =>
        have hne : k ≠ u := fun h => by subst h; rw [hqu] at hqk; exact Bool.noConfusion hqk
        simp [hne]
    have honesu : onesList ((Mask.column c).view &&& layer.mask.view) =
        (rangeMinus u).map (fun k => c + 9 * k) := by rw [hones, hfilter]
    have hchain := chain_takeWhile (fun k => c + 9 * k)
      (by intro j k hj hk h; simp only [] at h; omega) u hu9
    simp only [] at hchain
    have hguard : (count81 ((Mask.column c).view &&& layer.mask.view) == 8) = true := by
      simp [hc]
    have hloc : (Seg.column c).locate layer = some (c + 9 * u) := by
      simp only [Seg.locate, SUDOKU_L, hguard, if_true]
      rw [honesu, hchain]
      by_cases hu0 : u = 0
      · subst hu0
        rw [if_pos rfl]
        norm_num
      · rw [if_neg hu0]
        show some (c + 9 * (u - 1) + 9) = some (c + 9 * u)
        congr 1
        omega
    have humem : c + 9 * u ∈ (Seg.column c).cells := by
      rw [hcells]; exact List.mem_map.mpr ⟨u, List.mem_range.mpr hu9, rfl⟩
    have hubit : ((Mask.column c).view &&& layer.mask.view).testBit (c + 9 * u) = false := by
      rw [htbc (c + 9 * u) humem]; exact hqu
    constructor
    · intro p
      rw [hraw, hloc]
      constructor
      · intro hp
        have hp2 : c + 9 * u = p := by injection hp
        subst hp2
        refine ⟨hc, humem, hubit, ?_⟩
        intro q hq hqb
        obtain ⟨k, hk, rfl⟩ := List.mem_map.mp (hcells ▸ hq)
        rw [htbc (c + 9 * k) hq] at hqb
        have := huniq k (List.mem_range.mp hk) hqb
        omega
      · rintro ⟨-, hpmem, hpbit, hpuniq⟩
        rw [hpuniq (c + 9 * u) humem hubit]
    · intro h; exact absurd hc h
  · have hguard : (count81 ((Mask.column c).view &&& layer.mask.view) == 8) = false :=
      beq_eq_false_iff_ne.mpr hc
    have hloc : (Seg.column c).locate layer = none := by
      simp only [Seg.locate, SUDOKU_L, hguard, Bool.false_eq_true, if_false]
    constructor
    · intro p
      rw [hraw, hloc]
      constructor
      · intro hp; exact Option.noConfusion hp
      · rintro ⟨h8, -⟩; exact absurd h8 hc
    · intro _; exact hloc

theorem cellMain (t : Nat)
    (hshape : onesList (Mask.cell t).view = (Seg.cell t).cells)
    (hbit : ∀ j ∈ (Seg.cell t).cells, (Mask.cell t).view.testBit j = true)
    (layer : Layer) : locateSpec (Seg.cell t) layer := by
  have hraw : interOf (Seg.cell t) layer = (Mask.cell t).view &&& layer.mask.view := rfl
  have hcells : (Seg.cell t).cells = (List.range 9).map (fun k => t + 9 * (k / 3) + k % 3) := rfl
  have hones : onesList ((Mask.cell t).view &&& layer.mask.view) =
      ((List.range 9).filter (fun k => layer.mask.view.testBit (t + 9 * (k / 3) + k % 3))).map
        (fun k => t + 9 * (k / 3) + k % 3) := by
    rw [onesList_land, hshape, hcells, List.filter_map]
    exact congrArg _ (List.filter_congr fun x _ => rfl)
  have hcount : count81 ((Mask.cell t).view &&& layer.mask.view) =
      ((List.range 9).filter (fun k => layer.mask.view.testBit (t + 9 * (k / 3) + k % 3))).length := by
    rw [count81_eq_length, hones, List.length_map]
  have htbc : ∀ j ∈ (Seg.cell t).cells,
      ((Mask.cell t).view &&& layer.mask.view).testBit j = layer.mask.view.testBit j := by
    intro j hj
    rw [Nat.testBit_land, hbit j hj, Bool.true_and]
  by_cases hc : count81 ((Mask.cell t).view &&& layer.mask.view) = 8
  · obtain ⟨u, hu9, hqu, huniq⟩ := unique_unset _ (hcount ▸ hc)
    have hfilter : (List.range 9).filter
        (fun k => layer.mask.view.testBit (t + 9 * (k / 3) + k % 3)) = rangeMinus u := by
      apply List.filter_congr
      intro k hk
      have hk9 := List.mem_range.mp hk
      cases hqk : layer.mask.view.testBit (t + 9 * (k / 3) + k % 3) with
      | false =>
        have hek := huniq k hk9 hqk
        subst hek
        simp
      | true =>
        have hne : k ≠ u := fun h => by subst h; rw [hqu] at hqk; exact Bool.noConfusion hqk
        simp [hne]
    have honesu : onesList ((Mask.cell t).view &&& layer.mask.view) =
        (rangeMinus u).map (fun k => t + 9 * (k / 3) + k % 3) := by rw [hones, hfilter]
    have hchain := chain_takeWhile (fun k => t + 9 * (k / 3) + k % 3)
      (by intro j k hj hk h; simp only [] at h; omega) u hu9
    simp only [] at hchain
    have hguard : (count81 ((Mask.cell t).view &&& layer.mask.view) == 8) = true := by
      simp [hc]
    have hloc : (Seg.cell t).locate layer = some (t + 9 * (u / 3) + u % 3) := by
      simp only [Seg.locate, SUDOKU_L, SUDOKU_C, hguard, if_true]
      rw [honesu, hchain]
      by_cases hu0 : u = 0
      · subst hu0
        rw [if_pos rfl]
        norm_num
      · rw [if_neg hu0]
        show some (t + 9 * ((u - 1 + 1) / 3) + (u - 1 + 1) % 3) =
          some (t + 9 * (u / 3) + u % 3)
        congr 1
        omega
    have humem : t + 9 * (u / 3) + u % 3 ∈ (Seg.cell t).cells := by
      rw [hcells]; exact List.mem_map.mpr ⟨u, List.mem_range.mpr hu9, rfl⟩
    have hubit : ((Mask.cell t).view &&& layer.mask.view).testBit
        (t + 9 * (u / 3) + u % 3) = false := by
      rw [htbc (t + 9 * (u / 3) + u % 3) humem]; exact hqu
    constructor
    · intro p
      rw [hraw, hloc]
      constructor
      · intro hp
        have hp2 : t + 9 * (u / 3) + u % 3 = p := by injection hp
        subst hp2
        refine ⟨hc, humem, hubit, ?_⟩
        intro q hq hqb
        obtain ⟨k, hk, rfl⟩ := List.mem_map.mp (hcells ▸ hq)
        rw [htbc (t + 9 * (k / 3) + k % 3) hq] at hqb
        have := huniq k (List.mem_range.mp hk) hqb
        omega
      · rintro ⟨-, hpmem, hpbit, hpuniq⟩
        rw [hpuniq (t + 9 * (u / 3) + u % 3) humem hubit]
    · intro h; exact absurd hc h
  · have hguard : (count81 ((Mask.cell t).view &&& layer.mask.view) == 8) = false :=
      beq_eq_false_iff_ne.mpr hc
    have hloc : (Seg.cell t).locate layer = none := by
      simp only [Seg.locate, SUDOKU_L, SUDOKU_C, hguard, Bool.false_eq_true, if_false]
    constructor
    · intro p
      rw [hraw, hloc]
      constructor
      · intro hp; exact Option.noConfusion hp
      · rintro ⟨h8, -⟩; exact absurd h8 hc
    · intro _; exact hloc

theorem initSegmentsLit : initSegments =
    [Seg.row 0, Seg.column 0, Seg.cell 0,
     Seg.row 9, Seg.column 1, Seg.cell 3,
     Seg.row 18, Seg.column 2, Seg.cell 6,
     Seg.row 27, Seg.column 3, Seg.cell 27,
     Seg.row 36, Seg.column 4, Seg.cell 30,
     Seg.row 45, Seg.column 5, Seg.cell 33,
     Seg.row 54, Seg.column 6, Seg.cell 54,
     Seg.row 63, Seg.column 7, Seg.cell 57,
     Seg.row 72, Seg.column 8, Seg.cell 60] := by decide

/-- C2: for every one of the 27 segments and every layer, `locate`
returns `Some p` if and only if the population count of the intersection
of the segment's shape mask with the layer's blocked mask is exactly 8,
and then `p` is the unique position among the segment's nine cells whose
bit is unset in that intersection; any other population count yields
`None` (`locateSpec` spells this out). -/
theorem C2_locate_iff (s : Seg) (hs : s ∈ initSegments) (layer : Layer) : locateSpec s layer := by
  rw [initSegmentsLit] at hs
  fin_cases hs
  · exact rowMain 0 (by decide) (by decide) layer
  · exact colMain 0 (by decide) (by decide) layer
  · exact cellMain 0 (by decide) (by decide) layer
  · exact rowMain 9 (by decide) (by decide) layer
  · exact colMain 1 (by decide) (by decide) layer
  · exact cellMain 3 (by decide) (by decide) layer
  · exact rowMain 18 (by decide) (by decide) layer
  · exact colMain 2 (by decide) (by decide) layer
  · exact cellMain 6 (by decide) (by decide) layer
  · exact rowMain 27 (by decide) (by decide) layer
  · exact colMain 3 (by decide) (by decide) layer
  · exact cellMain 27 (by decide) (by decide) layer
  · exact rowMain 36 (by decide) (by decide) layer
  · exact colMain 4 (by decide) (by decide) layer
  · exact cellMain 30 (by decide) (by decide) layer
  · exact rowMain 45 (by decide) (by decide) layer
  · exact colMain 5 (by decide) (by decide) layer
  · exact cellMain 33 (by decide) (by decide) layer
  · exact rowMain 54 (by decide) (by decide) layer
  · exact colMain 6 (by decide) (by decide) layer
  · exact cellMain 54 (by decide) (by decide) layer
  · exact rowMain 63 (by decide) (by decide) layer
  · exact colMain 7 (by decide) (by decide) layer
  · exact cellMain 57 (by decide) (by decide) layer
  · exact rowMain 72 (by decide) (by decide) layer
  · exact colMain 8 (by decide) (by decide) layer
  · exact cellMain 60 (by decide) (by decide) layer

/-- Reduction of `is_layer_solved` on a corrupt layer. -/
theorem is_layer_solved_corrupt (s : Seg) (layer : Layer)
    (h : 2 ≤ s.count_layer_positions layer) :
    s.is_layer_solved layer = Except.error layer.value := by
  obtain ⟨n, hn⟩ : ∃ n, s.count_layer_positions layer = n + 2 :=
    ⟨s.count_layer_positions layer - 2, by omega⟩
  simp [Seg.is_layer_solved, hn]

theorem countSolved_none (s : Seg) :
    ∀ (ls : List Layer) (acc : Nat), (∃ l ∈ ls, 2 ≤ s.count_layer_positions l) →
      countSolved s ls acc = none := by
  intro ls
  induction ls with
  | nil => intro acc h; obtain ⟨l, hl, -⟩ := h; exact absurd hl (List.not_mem_nil l)
  | cons a t ih =>
    intro acc h
    obtain ⟨l, hl, hcnt⟩ := h
    rcases List.mem_cons.mp hl with rfl | hlt
    · rw [countSolved, is_layer_solved_corrupt s l hcnt]
    · cases hsv : s.is_layer_solved a with
      | error e => rw [countSolved, hsv]
      | ok b =>
        cases b with
        | true => rw [countSolved, hsv]; exact ih (acc + 1) ⟨l, hlt, hcnt⟩
        | false => rw [countSolved, hsv]; exact ih acc ⟨l, hlt, hcnt⟩

theorem collectFinds_none (s : Seg) :
    ∀ (ls : List Layer) (acc : List (Nat × Nat)),
      (∃ l ∈ ls, 2 ≤ s.count_layer_positions l) → collectFinds s ls acc = none := by
  intro ls
  induction ls with
  | nil => intro acc h; obtain ⟨l, hl, -⟩ := h; exact absurd hl (List.not_mem_nil l)
  | cons a t ih =>
    intro acc h
    obtain ⟨l, hl, hcnt⟩ := h
    rcases List.mem_cons.mp hl with rfl | hlt
    · rw [collectFinds, is_layer_solved_corrupt s l hcnt]
    · cases hsv : s.is_layer_solved a with
      | error e => rw [collectFinds, hsv]
      | ok b =>
        cases b with
        | true => rw [collectFinds, hsv]; exact ih acc ⟨l, hlt, hcnt⟩
        | false =>
          rw [collectFinds, hsv]
          cases hlo : s.locate a with
          | some i => exact ih (acc ++ [(a.value, i)]) ⟨l, hlt, hcnt⟩
          | none => exact ih acc ⟨l, hlt, hcnt⟩


/-- Over the layer list, with no corrupt layer the collection loop
returns the accumulated prefix followed by exactly the spec's pairs. -/
theorem collectFinds_eq (s : Seg) :
    ∀ (ls : List Layer) (acc : List (Nat × Nat)),
      (∀ layer ∈ ls, s.count_layer_positions layer ≤ 1) →
      collectFinds s ls acc = some (acc ++
        ((ls.filter (fun layer =>
          match s.is_layer_solved layer with
          | Except.ok false => true
          | _ => false)).filterMap
          (fun layer => (s.locate layer).map (fun i => (layer.value, i))))) := by
  intro ls
  induction ls with
  | nil => intro acc _; simp [collectFinds]
  | cons a t ih =>
    intro acc h
    have ha := h a (List.mem_cons_self a t)
    have ht : ∀ layer ∈ t, s.count_layer_positions layer ≤ 1 :=
      fun layer hl => h layer (List.mem_cons_of_mem a hl)
    rcases hcnt : s.count_layer_positions a with _ | n
    · have hsv : s.is_layer_solved a = Except.ok false := by
        simp [Seg.is_layer_solved, hcnt]
      cases hlo : s.locate a with
      | some i =>
        rw [collectFinds, hsv, hlo]
        refine (ih (acc ++ [(a.value, i)]) ht).trans ?_
        simp [List.filter_cons, hsv, List.filterMap_cons, hlo]
      | none =>
        rw [collectFinds, hsv, hlo]
        refine (ih acc ht).trans ?_
        simp [List.filter_cons, hsv, List.filterMap_cons, hlo]
    · have hn0 : n = 0 := by omega
      subst hn0
      have hsv : s.is_layer_solved a = Except.ok true := by
        simp [Seg.is_layer_solved, hcnt]
      rw [collectFinds, hsv]
      refine (ih acc ht).trans ?_
      simp [List.filter_cons, hsv]


theorem applyUpdates_append (us vs : List (Nat × Nat)) (p : Puzzle) :
    applyUpdates (us ++ vs) p = applyUpdates vs (applyUpdates us p) := by
  unfold applyUpdates
  exact List.foldl_append _ _ us vs

theorem applyUpdates_mk (us : List (Nat × Nat)) :
    ∀ ls : List Layer, applyUpdates us ⟨ls⟩ =
      ⟨us.foldl (fun l vi => placeAll l vi.1 vi.2) ls⟩ := by
  induction us with
  | nil => intro ls; rfl
  | cons u t ih => intro ls; exact ih (placeAll ls u.1 u.2)

/-- The value field survives both `occupy` and `blot`, so `placeAll`
leaves the list of layer values unchanged. -/
theorem placeAll_values (ls : List Layer) (v i : Nat) :
    (placeAll ls v i).map Layer.value = ls.map Layer.value := by
  unfold placeAll
  rw [List.map_map]
  apply List.map_congr_left
  intro l _
  by_cases h : l.value = v <;> simp [h, Layer.occupy, Layer.blot, Function.comp]

theorem values_applyUpdates (us : List (Nat × Nat)) :
    (applyUpdates us freshPuzzle).layers.map Layer.value = [1, 2, 3, 4, 5, 6, 7, 8, 9] := by
  induction us using List.reverseRecOn with
  | nil => decide
  | append_singleton t e ih =>
    rw [applyUpdates_append]
    show (placeAll (applyUpdates t freshPuzzle).layers e.1 e.2).map Layer.value = _
    rw [placeAll_values]
    exact ih

/-- Membership in a layer's `indices` after a run of `update`s from the
fresh puzzle is exactly "this layer's digit was assigned there". -/
theorem mem_indices_char :
    ∀ (us : List (Nat × Nat)) (l : Layer), l ∈ (applyUpdates us freshPuzzle).layers →
      ∀ pos, (pos ∈ l.indices ↔ (l.value, pos) ∈ us) := by
  intro us
  induction us using List.reverseRecOn with
  | nil =>
    intro l hl pos
    obtain ⟨k, -, rfl⟩ := List.mem_map.mp hl
    simp [Layer.new]
  | append_singleton t e ih =>
    intro l hl pos
    rw [applyUpdates_append] at hl
    obtain ⟨l0, hl0, rfl⟩ := List.mem_map.mp hl
    by_cases h : l0.value = e.1
    · simp only [h, if_pos rfl]
      show pos ∈ (l0.occupy e.2).indices ↔ ((l0.occupy e.2).value, pos) ∈ t ++ [e]
      simp only [Layer.occupy, List.mem_append, List.mem_singleton]
      rw [ih l0 hl0 pos]
      constructor
      · rintro (hm | rfl)
        · exact Or.inl hm
        · exact Or.inr (by rw [h])
      · rintro (hm | hp)
        · exact Or.inl hm
        · right
          have : l0.value = e.1 ∧ pos = e.2 := by
            constructor
            · exact h
            · have := congrArg Prod.snd hp
              simpa using this
          exact this.2
    · simp only [h, if_neg h]
      show pos ∈ (l0.blot e.2).indices ↔ ((l0.blot e.2).value, pos) ∈ t ++ [e]
      simp only [Layer.blot, List.mem_append, List.mem_singleton]
      rw [ih l0 hl0 pos]
      constructor
      · exact Or.inl
      · rintro (hm | hp)
        · exact hm
        · exact absurd (congrArg Prod.fst hp) (by simpa using h)

theorem filter_length_le_one {α β : Type} [DecidableEq β] :
    ∀ (l : List α) (f : α → β), (l.map f).Nodup → ∀ (p : α → Bool) (c : β),
      (∀ a ∈ l, p a = true → f a = c) → (l.filter p).length ≤ 1 := by
  intro l
  induction l with
  | nil => intro f _ p c _; simp
  | cons a t ih =>
    intro f hnd p c h
    rw [List.map_cons, List.nodup_cons] at hnd
    rw [List.filter_cons]
    by_cases hpa : p a = true
    · rw [if_pos hpa]
      have h0 : (t.filter p).length = 0 := by
        rw [List.length_eq_zero, List.filter_eq_nil_iff]
        intro b hb hpb
        have hfb : f b = c := h b (List.mem_cons_of_mem a hb) hpb
        have hfa : f a = c := h a (List.mem_cons_self a t) hpa
        exact hnd.1 (List.mem_map.mpr ⟨b, hb, by rw [hfb, hfa]⟩)
      simp [h0]
    · rw [if_neg hpa]
      exact ih f hnd.2 p c (fun b hb => h b (List.mem_cons_of_mem a hb))

/-- From a fresh puzzle, update sequences that never assign two different
digits to one position keep every position in at most one layer. -/
theorem atMostOne_fresh (us : List (Nat × Nat))
    (hcompat : ∀ a ∈ us, ∀ b ∈ us, a.2 = b.2 → a.1 = b.1) (pos : Nat) :
    countContaining pos (applyUpdates us freshPuzzle) ≤ 1 := by
  unfold countContaining
  by_cases hex : ∃ v, (v, pos) ∈ us
  · obtain ⟨v0, hv0⟩ := hex
    apply filter_length_le_one _ Layer.value ?_ _ v0
    · intro a ha hpa
      have hmem : pos ∈ a.indices := List.elem_iff.mp hpa
      have hin := (mem_indices_char us a ha pos).mp hmem
      exact hcompat (a.value, pos) hin (v0, pos) hv0 rfl
    · rw [values_applyUpdates]
      decide
  · have hnil : (applyUpdates us freshPuzzle).layers.filter
        (fun l => l.indices.contains pos) = [] := by
      rw [List.filter_eq_nil_iff]
      intro a ha hpa
      exact hex ⟨a.value, (mem_indices_char us a ha pos).mp (List.elem_iff.mp hpa)⟩
    rw [hnil]
    simp


theorem mapM_digits_eq : ∀ (l : List Char) (ds : List Nat),
    l.mapM charToDigit? = some ds → ds = l.map (fun c => (charToDigit? c).getD 0) := by
  intro l
  induction l with
  | nil =>
    intro ds h
    rw [List.mapM_nil] at h
    simpa using h.symm
  | cons c t ih =>
    intro ds h
    rw [List.mapM_cons] at h
    cases hc : charToDigit? c with
    | none => rw [hc] at h; simp at h
    | some d =>
      rw [hc] at h
      cases ht : t.mapM charToDigit? with
      | none => rw [ht] at h; simp at h
      | some r =>
        rw [ht] at h
        simp only [Option.bind_some, Option.pure_def, Option.bind_eq_bind,
          Option.some_bind, Option.some.injEq] at h
        rw [← h, List.map_cons, hc, ← ih r ht]
        rfl

/-- A successful `parse` is the same thing as running the nonzero
characters through `update`, in feed order, from the fresh puzzle. -/
theorem parse_eq_updates (feed : String) (p0 : Puzzle)
    (h : Puzzle.parse feed = some p0) :
    p0 = applyUpdates (parsePairs feed) freshPuzzle := by
  unfold Puzzle.parse at h
  obtain ⟨ds, hds, hbuild⟩ := Option.map_eq_some'.mp h
  have hdsm := mapM_digits_eq feed.toList ds hds
  rw [← hbuild, hdsm]
  unfold parsePairs freshPuzzle
  rw [applyUpdates_mk, List.foldl_map]

theorem foldl_lookup_eq (k : Nat) : ∀ (l : List (Nat × Nat)) (a : Option Nat),
    l.foldl (fun acc e => if e.1 = k then some e.2 else acc) a =
      match lookupLast l k with
      | some v => some v
      | none => a := by
  intro l
  induction l with
  | nil => intro a; rfl
  | cons e t ih =>
    intro a
    show t.foldl (fun acc e => if e.1 = k then some e.2 else acc)
      (if e.1 = k then some e.2 else a) = _
    rw [ih]
    have h2 : lookupLast (e :: t) k =
        match lookupLast t k with
        | some v => some v
        | none => if e.1 = k then some e.2 else none := by
      show t.foldl (fun acc e => if e.1 = k then some e.2 else acc)
        (if e.1 = k then some e.2 else none) = _
      rw [ih]
    rw [h2]
    cases lookupLast t k <;> by_cases he : e.1 = k <;> simp [he]

theorem lookupLast_append (l1 l2 : List (Nat × Nat)) (k : Nat) :
    lookupLast (l1 ++ l2) k =
      match lookupLast l2 k with
      | some v => some v
      | none => lookupLast l1 k := by
  unfold lookupLast
  rw [List.foldl_append]
  exact foldl_lookup_eq k l2 _

theorem lookupLast_dup (A : List (Nat × Nat)) (e : Nat × Nat) (k : Nat) :
    lookupLast (A ++ [e, e]) k = lookupLast (A ++ [e]) k := by
  unfold lookupLast
  rw [List.foldl_append, List.foldl_append]
  generalize List.foldl (fun acc e => if e.1 = k then some e.2 else acc) none A = a
  show (if e.1 = k then some e.2 else if e.1 = k then some e.2 else a)
    = if e.1 = k then some e.2 else a
  by_cases he : e.1 = k <;> simp [he]

theorem lookupLast_swap (A : List (Nat × Nat)) (e1 e2 : Nat × Nat) (hv : e1.2 = e2.2)
    (k : Nat) : lookupLast (A ++ [e1, e2]) k = lookupLast (A ++ [e2, e1]) k := by
  unfold lookupLast
  rw [List.foldl_append, List.foldl_append]
  generalize List.foldl (fun acc e => if e.1 = k then some e.2 else acc) none A = a
  show (if e2.1 = k then some e2.2 else if e1.1 = k then some e1.2 else a)
    = (if e1.1 = k then some e1.2 else if e2.1 = k then some e2.2 else a)
  by_cases h1 : e1.1 = k <;> by_cases h2 : e2.1 = k <;> simp [h1, h2, hv]

theorem lor_absorb2 (a b : Nat) : a ||| b ||| b = a ||| b := by
  apply Nat.eq_of_testBit_eq
  intro j
  simp only [Nat.testBit_lor]
  generalize a.testBit j = x0
  generalize b.testBit j = x1
  revert x0 x1
  decide

theorem lor_absorb3 (b c r o : Nat) :
    b ||| c ||| r ||| o ||| c ||| r ||| o = b ||| c ||| r ||| o := by
  apply Nat.eq_of_testBit_eq
  intro j
  simp only [Nat.testBit_lor]
  generalize b.testBit j = x0
  generalize c.testBit j = x1
  generalize r.testBit j = x2
  generalize o.testBit j = x3
  revert x0 x1 x2 x3
  decide

theorem lor_swap3 (b c1 r1 o1 c2 r2 o2 : Nat) :
    b ||| c1 ||| r1 ||| o1 ||| c2 ||| r2 ||| o2
      = b ||| c2 ||| r2 ||| o2 ||| c1 ||| r1 ||| o1 := by
  apply Nat.eq_of_testBit_eq
  intro j
  simp only [Nat.testBit_lor]
  generalize b.testBit j = x0
  generalize c1.testBit j = x1
  generalize r1.testBit j = x2
  generalize o1.testBit j = x3
  generalize c2.testBit j = x4
  generalize r2.testBit j = x5
  generalize o2.testBit j = x6
  revert x0 x1 x2 x3 x4 x5 x6
  decide

theorem lor_swap_late (b c r o e : Nat) :
    b ||| c ||| r ||| o ||| e = b ||| e ||| c ||| r ||| o := by
  apply Nat.eq_of_testBit_eq
  intro j
  simp only [Nat.testBit_lor]
  generalize b.testBit j = x0
  generalize c.testBit j = x1
  generalize r.testBit j = x2
  generalize o.testBit j = x3
  generalize e.testBit j = x4
  revert x0 x1 x2 x3 x4
  decide

theorem lor_swap_two (b e1 e2 : Nat) : b ||| e1 ||| e2 = b ||| e2 ||| e1 := by
  apply Nat.eq_of_testBit_eq
  intro j
  simp only [Nat.testBit_lor]
  generalize b.testBit j = x0
  generalize e1.testBit j = x1
  generalize e2.testBit j = x2
  revert x0 x1 x2
  decide



theorem placeAll_eq_map (ls : List Layer) (v i : Nat) :
    placeAll ls v i = ls.map (place v i) := rfl

theorem occupy_value (l : Layer) (i : Nat) : (l.occupy i).value = l.value := rfl

theorem blot_value (l : Layer) (i : Nat) : (l.blot i).value = l.value := rfl

theorem blot_block (l : Layer) (i : Nat) : layerBlock (l.blot i) = layerBlock l := rfl

theorem occupy_block (l : Layer) (i : Nat) :
    layerBlock (l.occupy i) = layerBlock l ++ [(i, l.value)] := by
  show (l.indices ++ [i]).map (fun j => (j, l.value)) = _
  rw [List.map_append]
  rfl

theorem place_occupy (v i : Nat) (l : Layer) (h : l.value = v) :
    place v i l = l.occupy i := by
  unfold place
  rw [if_pos h]

theorem place_blot (v i : Nat) (l : Layer) (h : l.value ≠ v) :
    place v i l = l.blot i := by
  unfold place
  rw [if_neg h]

theorem place_place_block (v i k : Nat) (l : Layer) :
    lookupLast (layerBlock (place v i (place v i l))) k
      = lookupLast (layerBlock (place v i l)) k := by
  by_cases h : l.value = v
  · rw [place_occupy v i l h,
      place_occupy v i (l.occupy i) (by rw [occupy_value]; exact h),
      occupy_block (l.occupy i) i, occupy_block l i, occupy_value, List.append_assoc]
    exact lookupLast_dup (layerBlock l) (i, l.value) k
  · rw [place_blot v i l h, place_blot v i (l.blot i) (by rw [blot_value]; exact h),
      blot_block, blot_block]

theorem place_swap_block (v i1 i2 k : Nat) (l : Layer) :
    lookupLast (layerBlock (place v i2 (place v i1 l))) k
      = lookupLast (layerBlock (place v i1 (place v i2 l))) k := by
  by_cases h : l.value = v
  · rw [place_occupy v i1 l h, place_occupy v i2 l h,
      place_occupy v i2 (l.occupy i1) (by rw [occupy_value]; exact h),
      place_occupy v i1 (l.occupy i2) (by rw [occupy_value]; exact h),
      occupy_block (l.occupy i1) i2, occupy_block (l.occupy i2) i1,
      occupy_block l i1, occupy_block l i2, occupy_value, occupy_value,
      List.append_assoc, List.append_assoc]
    exact lookupLast_swap (layerBlock l) (i1, l.value) (i2, l.value) rfl k
  · rw [place_blot v i1 l h, place_blot v i2 l h,
      place_blot v i2 (l.blot i1) (by rw [blot_value]; exact h),
      place_blot v i1 (l.blot i2) (by rw [blot_value]; exact h),
      blot_block, blot_block, blot_block, blot_block]

theorem place_place_mask (v i : Nat) (l : Layer) :
    (place v i (place v i l)).mask = (place v i l).mask := by
  by_cases h : l.value = v
  · rw [place_occupy v i l h, place_occupy v i (l.occupy i) (by rw [occupy_value]; exact h)]
    exact congrArg Mask.mk (lor_absorb3 l.mask.bits
      ((Mask.cell (occupyCellArg i)).bits % 2 ^ SUDOKU_A)
      ((Mask.row (occupyRowArg i)).bits % 2 ^ SUDOKU_A)
      ((Mask.column (occupyColArg i)).bits % 2 ^ SUDOKU_A))
  · rw [place_blot v i l h, place_blot v i (l.blot i) (by rw [blot_value]; exact h)]
    exact congrArg Mask.mk (lor_absorb2 l.mask.bits (2 ^ i))

theorem place_swap_mask (v i1 i2 : Nat) (l : Layer) :
    (place v i2 (place v i1 l)).mask = (place v i1 (place v i2 l)).mask := by
  by_cases h : l.value = v
  · rw [place_occupy v i1 l h, place_occupy v i2 l h,
      place_occupy v i2 (l.occupy i1) (by rw [occupy_value]; exact h),
      place_occupy v i1 (l.occupy i2) (by rw [occupy_value]; exact h)]
    exact congrArg Mask.mk (lor_swap3 l.mask.bits
      ((Mask.cell (occupyCellArg i1)).bits % 2 ^ SUDOKU_A)
      ((Mask.row (occupyRowArg i1)).bits % 2 ^ SUDOKU_A)
      ((Mask.column (occupyColArg i1)).bits % 2 ^ SUDOKU_A)
      ((Mask.cell (occupyCellArg i2)).bits % 2 ^ SUDOKU_A)
      ((Mask.row (occupyRowArg i2)).bits % 2 ^ SUDOKU_A)
      ((Mask.column (occupyColArg i2)).bits % 2 ^ SUDOKU_A))
  · rw [place_blot v i1 l h, place_blot v i2 l h,
      place_blot v i2 (l.blot i1) (by rw [blot_value]; exact h),
      place_blot v i1 (l.blot i2) (by rw [blot_value]; exact h)]
    exact congrArg Mask.mk (lor_swap_two l.mask.bits (2 ^ i1) (2 ^ i2))

theorem place_comm_distinct (v1 i1 v2 i2 : Nat) (h : v1 ≠ v2) (l : Layer) :
    place v2 i2 (place v1 i1 l) = place v1 i1 (place v2 i2 l) := by
  by_cases h1 : l.value = v1
  · have h2 : l.value ≠ v2 := by rw [h1]; exact h
    rw [place_occupy v1 i1 l h1, place_blot v2 i2 l h2,
      place_blot v2 i2 (l.occupy i1) (by rw [occupy_value]; exact h2),
      place_occupy v1 i1 (l.blot i2) (by rw [blot_value]; exact h1)]
    show Layer.mk (l.indices ++ [i1]) _ l.value = Layer.mk (l.indices ++ [i1]) _ l.value
    exact congrArg (fun m => Layer.mk (l.indices ++ [i1]) m l.value)
      (congrArg Mask.mk (lor_swap_late l.mask.bits
        ((Mask.cell (occupyCellArg i1)).bits % 2 ^ SUDOKU_A)
        ((Mask.row (occupyRowArg i1)).bits % 2 ^ SUDOKU_A)
        ((Mask.column (occupyColArg i1)).bits % 2 ^ SUDOKU_A)
        (2 ^ i2)))
  · by_cases h2 : l.value = v2
    · have h1n : l.value ≠ v1 := h1
      rw [place_blot v1 i1 l h1n, place_occupy v2 i2 l h2,
        place_occupy v2 i2 (l.blot i1) (by rw [blot_value]; exact h2),
        place_blot v1 i1 (l.occupy i2) (by rw [occupy_value]; exact h1n)]
      show Layer.mk (l.indices ++ [i2]) _ l.value = Layer.mk (l.indices ++ [i2]) _ l.value
      exact congrArg (fun m => Layer.mk (l.indices ++ [i2]) m l.value)
        (congrArg Mask.mk (lor_swap_late l.mask.bits
          ((Mask.cell (occupyCellArg i2)).bits % 2 ^ SUDOKU_A)
          ((Mask.row (occupyRowArg i2)).bits % 2 ^ SUDOKU_A)
          ((Mask.column (occupyColArg i2)).bits % 2 ^ SUDOKU_A)
          (2 ^ i1)).symm)
    · rw [place_blot v1 i1 l h1, place_blot v2 i2 l h2,
        place_blot v2 i2 (l.blot i1) (by rw [blot_value]; exact h2),
        place_blot v1 i1 (l.blot i2) (by rw [blot_value]; exact h1)]
      exact congrArg (fun m => Layer.mk l.indices m l.value)
        (congrArg Mask.mk (lor_swap_two l.mask.bits (2 ^ i1) (2 ^ i2)))

theorem lookup_plist_congr (g1 g2 : Layer → Layer)
    (h : ∀ l k, lookupLast (layerBlock (g1 l)) k = lookupLast (layerBlock (g2 l)) k) :
    ∀ (ls : List Layer) (k : Nat),
      lookupLast ((ls.map g1).foldr (fun l acc => layerBlock l ++ acc) []) k
        = lookupLast ((ls.map g2).foldr (fun l acc => layerBlock l ++ acc) []) k := by
  intro ls k
  induction ls with
  | nil => rfl
  | cons l t ih =>
    simp only [List.map_cons, List.foldr_cons]
    rw [lookupLast_append, lookupLast_append, ih, h l k]

theorem readout_update_update (p : Puzzle) (v i : Nat) :
    ((p.update v i).update v i).readout = (p.update v i).readout := by
  unfold Puzzle.readout
  apply List.map_congr_left
  intro j _
  have hl : lookupLast (((p.update v i).update v i).positionsList) j
      = lookupLast ((p.update v i).positionsList) j := by
    show lookupLast ((placeAll (placeAll p.layers v i) v i).foldr
        (fun l acc => layerBlock l ++ acc) []) j
      = lookupLast ((placeAll p.layers v i).foldr (fun l acc => layerBlock l ++ acc) []) j
    simp only [placeAll_eq_map, List.map_map]
    exact lookup_plist_congr _ _ (fun l k => place_place_block v i k l) p.layers j
  rw [hl]

theorem masks_update_update (p : Puzzle) (v i : Nat) :
    ((p.update v i).update v i).layers.map Layer.mask
      = (p.update v i).layers.map Layer.mask := by
  show (placeAll (placeAll p.layers v i) v i).map Layer.mask
    = (placeAll p.layers v i).map Layer.mask
  simp only [placeAll_eq_map, List.map_map]
  exact List.map_congr_left (fun l _ => place_place_mask v i l)

theorem readout_update_swap (p : Puzzle) (v i1 i2 : Nat) :
    ((p.update v i1).update v i2).readout = ((p.update v i2).update v i1).readout := by
  unfold Puzzle.readout
  apply List.map_congr_left
  intro j _
  have hl : lookupLast (((p.update v i1).update v i2).positionsList) j
      = lookupLast (((p.update v i2).update v i1).positionsList) j := by
    show lookupLast ((placeAll (placeAll p.layers v i1) v i2).foldr
        (fun l acc => layerBlock l ++ acc) []) j
      = lookupLast ((placeAll (placeAll p.layers v i2) v i1).foldr
        (fun l acc => layerBlock l ++ acc) []) j
    simp only [placeAll_eq_map, List.map_map]
    exact lookup_plist_congr _ _ (fun l k => place_swap_block v i1 i2 k l) p.layers j
  rw [hl]

theorem masks_update_swap (p : Puzzle) (v i1 i2 : Nat) :
    ((p.update v i1).update v i2).layers.map Layer.mask
      = ((p.update v i2).update v i1).layers.map Layer.mask := by
  show (placeAll (placeAll p.layers v i1) v i2).map Layer.mask
    = (placeAll (placeAll p.layers v i2) v i1).map Layer.mask
  simp only [placeAll_eq_map, List.map_map]
  exact List.map_congr_left (fun l _ => by
    show ((place v i2 (place v i1 l))).mask = ((place v i1 (place v i2 l))).mask
    exact place_swap_mask v i1 i2 l)

theorem update_comm_distinct (p : Puzzle) (v1 i1 v2 i2 : Nat) (h : v1 ≠ v2) :
    (p.update v1 i1).update v2 i2 = (p.update v2 i2).update v1 i1 := by
  show Puzzle.mk (placeAll (placeAll p.layers v1 i1) v2 i2)
    = Puzzle.mk (placeAll (placeAll p.layers v2 i2) v1 i1)
  simp only [placeAll_eq_map, List.map_map]
  exact congrArg Puzzle.mk
    (List.map_congr_left (fun l _ => place_comm_distinct v1 i1 v2 i2 h l))

/-- C1: parsing the reference puzzle string and running `solve()` to
completion terminates (the loop reaches the solved state, here within 8
rounds of fuel), and `readout()` afterwards returns exactly the solved
reference grid. -/
theorem C1_end_to_end :
    ((Puzzle.parse refFeed).bind (fun p => solveLoop 8 initSegments p)).map
      (fun p => p.readout) = some refSolved.toList := by decide

/-- C3: divergence witness for the `Row` variant of
`count_layer_positions`. The row built from 1-based row 2 stores start
index 9, and a layer with a placement at board index 9 (which lies in
row 2, i.e. among the row's nine cells) is counted 0 times by the code,
because the filter compares against `[9*9, 9*10)` instead of `[9, 18)`. -/
theorem C3_row_count_divergence :
    (Row.new 2).count_layer_positions ⟨[9], Mask.new, 1⟩ = 0
  ∧ (([9].filter (fun i => (Row.new 2).cells.contains i)).length = 1) := by decide

/-- C4 counterexample: from a freshly constructed puzzle, the two
`update` calls `(1,0)` then `(2,0)` leave position 0 in the
`placedIndices` of two different layers, so the unconditional claim
fails. -/
theorem C4_counterexample :
    ¬ (countContaining 0 (applyUpdates [(1, 0), (2, 0)] freshPuzzle) ≤ 1) := by decide

/-- C4 (amended): for every sequence of `update` calls that never assigns
two different digits to the same index — counting, for a freshly parsed
puzzle, the parse's own placements as part of the sequence — every
position ends up in at most one layer's `placedIndices`. -/
theorem C4_at_most_one :
    (∀ us : List (Nat × Nat),
        (∀ a ∈ us, ∀ b ∈ us, a.2 = b.2 → a.1 = b.1) →
        ∀ pos, countContaining pos (applyUpdates us freshPuzzle) ≤ 1)
  ∧ (∀ (feed : String) (p0 : Puzzle) (us : List (Nat × Nat)),
        Puzzle.parse feed = some p0 →
        (∀ a ∈ parsePairs feed ++ us, ∀ b ∈ parsePairs feed ++ us, a.2 = b.2 → a.1 = b.1) →
        ∀ pos, countContaining pos (applyUpdates us p0) ≤ 1) := by
  constructor
  · exact atMostOne_fresh
  · intro feed p0 us hp hcompat pos
    rw [parse_eq_updates feed p0 hp, ← applyUpdates_append]
    exact atMostOne_fresh _ hcompat pos

/-- Witness for C4's amended theorem at a concrete compatible sequence. -/
theorem C4_at_most_one_witness :
    countContaining 0 (applyUpdates [(1, 0), (2, 1)] freshPuzzle) ≤ 1 :=
  C4_at_most_one.1 [(1, 0), (2, 1)] (by decide) 0

/-- C5: `is_layer_solved` maps a placement count of 0 to `Ok(false)`, of
1 to `Ok(true)`, and of 2 or more to the corrupt-layer error carrying the
layer's value; and a corrupt layer makes `count_open` and `iterate`
abort (the `unwrap`/`expect` panic, modelled as `none`), never a
recoverable result. -/
theorem C5_corrupt_layer (s : Seg) (layer : Layer) (p : Puzzle) :
    (s.count_layer_positions layer = 0 → s.is_layer_solved layer = Except.ok false)
  ∧ (s.count_layer_positions layer = 1 → s.is_layer_solved layer = Except.ok true)
  ∧ (2 ≤ s.count_layer_positions layer → s.is_layer_solved layer = Except.error layer.value)
  ∧ ((∃ l ∈ p.layers, 2 ≤ s.count_layer_positions l) →
      s.count_open p = none ∧ s.iterate p = none) := by
  refine ⟨?_, ?_, ?_, ?_⟩
  · intro h; simp [Seg.is_layer_solved, h]
  · intro h; simp [Seg.is_layer_solved, h]
  · exact is_layer_solved_corrupt s layer
  · intro h
    constructor
    · show (countSolved s p.layers 0).map _ = none
      rw [countSolved_none s p.layers 0 h]
      rfl
    · show (collectFinds s p.layers []).map _ = none
      rw [collectFinds_none s p.layers [] h]
      rfl

/-- Witness for C5 at concrete layers: counts 0, 1 and 2 for `Row(1)`,
and the abort of `count_open`/`iterate` on a doubly-placed digit. -/
theorem C5_corrupt_layer_witness :
    ((Row.new 1).is_layer_solved (Layer.new 1) = Except.ok false)
  ∧ ((Row.new 1).is_layer_solved ⟨[0], Mask.new, 1⟩ = Except.ok true)
  ∧ ((Row.new 1).is_layer_solved ⟨[0, 1], Mask.new, 1⟩ = Except.error 1)
  ∧ ((Row.new 1).count_open (applyUpdates [(1, 0), (1, 1)] freshPuzzle) = none
      ∧ (Row.new 1).iterate (applyUpdates [(1, 0), (1, 1)] freshPuzzle) = none) :=
  ⟨(C5_corrupt_layer (Row.new 1) (Layer.new 1) freshPuzzle).1 (by decide),
   (C5_corrupt_layer (Row.new 1) ⟨[0], Mask.new, 1⟩ freshPuzzle).2.1 (by decide),
   (C5_corrupt_layer (Row.new 1) ⟨[0, 1], Mask.new, 1⟩ freshPuzzle).2.2.1 (by decide),
   (C5_corrupt_layer (Row.new 1) (Layer.new 1)
      (applyUpdates [(1, 0), (1, 1)] freshPuzzle)).2.2.2 (by decide)⟩

/-- C6: `iterate` first collects, against the puzzle state as it was on
entry, the `(digit, index)` pair located for every layer not yet solved
in this segment, and only afterwards applies all collected pairs through
`update` (provided no layer is corrupt, which would abort instead). -/
theorem C6_iterate_collect_then_apply (s : Seg) (p : Puzzle)
    (h : ∀ layer ∈ p.layers, s.count_layer_positions layer ≤ 1) :
    s.iterate p = some (applyUpdates (findsSpec s p) p) := by
  show (collectFinds s p.layers []).map (fun finds => applyUpdates finds p) = _
  rw [collectFinds_eq s p.layers [] h]
  rfl

/-- Witness for C6 on the fresh puzzle and `Row(1)`. -/
theorem C6_iterate_witness :
    (Row.new 1).iterate freshPuzzle
      = some (applyUpdates (findsSpec (Row.new 1) freshPuzzle) freshPuzzle) :=
  C6_iterate_collect_then_apply (Row.new 1) freshPuzzle (by decide)

/-- C7: after `occupy(i)` (for a board index `i < 81`), the layer's
blocked mask is a superset of the union of the block, row and column
shape masks covering `i` (with the stated argument arithmetic), every
previously set bit stays set (both supersets stated as absorption under
union), and `placedIndices` grows by exactly the entry `i`. -/
theorem C7_occupy_union (l : Layer) (i : Nat) (_hi : i < 81) :
    ((Mask.cell (27 * (i / 27) + 3 * (i % 9 / 3))).view
       ||| (Mask.row (9 * (i / 9))).view ||| (Mask.column (i % 9)).view)
      ||| (l.occupy i).mask.view = (l.occupy i).mask.view
  ∧ (l.mask.view ||| (l.occupy i).mask.view = (l.occupy i).mask.view)
  ∧ (l.occupy i).indices = l.indices ++ [i] := by
  have hargs1 : (27 * (i / 27) + 3 * (i % 9 / 3)) = occupyCellArg i := rfl
  have hargs2 : (9 * (i / 9)) = occupyRowArg i := rfl
  have hargs3 : (i % 9) = occupyColArg i := rfl
  refine ⟨?_, ?_, rfl⟩
  · rw [hargs1, hargs2, hargs3]
    apply Nat.eq_of_testBit_eq
    intro j
    simp only [Mask.view, Layer.occupy, Nat.testBit_lor, Nat.testBit_mod_two_pow]
    generalize decide (j < SUDOKU_A) = d
    generalize Nat.testBit l.mask.bits j = x0
    generalize Nat.testBit (Mask.cell (occupyCellArg i)).bits j = x1
    generalize Nat.testBit (Mask.row (occupyRowArg i)).bits j = x2
    generalize Nat.testBit (Mask.column (occupyColArg i)).bits j = x3
    revert d x0 x1 x2 x3
    decide
  · apply Nat.eq_of_testBit_eq
    intro j
    simp only [Mask.view, Layer.occupy, Nat.testBit_lor, Nat.testBit_mod_two_pow]
    generalize decide (j < SUDOKU_A) = d
    generalize Nat.testBit l.mask.bits j = x0
    generalize Nat.testBit (Mask.cell (occupyCellArg i)).bits j = x1
    generalize Nat.testBit (Mask.row (occupyRowArg i)).bits j = x2
    generalize Nat.testBit (Mask.column (occupyColArg i)).bits j = x3
    revert d x0 x1 x2 x3
    decide

/-- Witness for C7 at a fresh layer and board index 40. -/
theorem C7_occupy_union_witness :
    ((Mask.cell (27 * (40 / 27) + 3 * (40 % 9 / 3))).view
       ||| (Mask.row (9 * (40 / 9))).view ||| (Mask.column (40 % 9)).view)
      ||| ((Layer.new 1).occupy 40).mask.view = ((Layer.new 1).occupy 40).mask.view
  ∧ ((Layer.new 1).mask.view ||| ((Layer.new 1).occupy 40).mask.view
      = ((Layer.new 1).occupy 40).mask.view)
  ∧ ((Layer.new 1).occupy 40).indices = (Layer.new 1).indices ++ [40] :=
  C7_occupy_union (Layer.new 1) 40 (by decide)

/-- C8 counterexample: 81 is a multiple of 9 and passes `Mask::row`'s
assertion, but the resulting mask's population count over the observable
81-bit window is 0, not 9. -/
theorem C8_shape_counterexample :
    81 % 9 = 0 ∧ count81 (Mask.row 81).view ≠ 9 ∧ count81 (Mask.row 81).view = 0 := by
  decide

/-- C8 (amended): the three sample shape masks set exactly the stated
bits, and the population count is exactly 9 for every block-aligned
top-left index of `cellShape`, every multiple of 9 below 81 for
`rowShape`, and every column 0..8 for `columnShape`. -/
theorem C8_shape_masks :
    onesList (Mask.cell 3).view = [3, 4, 5, 12, 13, 14, 21, 22, 23]
  ∧ onesList (Mask.row 18).view = [18, 19, 20, 21, 22, 23, 24, 25, 26]
  ∧ onesList (Mask.column 8).view = [8, 17, 26, 35, 44, 53, 62, 71, 80]
  ∧ (∀ i ∈ [0, 3, 6, 27, 30, 33, 54, 57, 60], count81 (Mask.cell i).view = 9)
  ∧ (∀ i, i < 81 → i % 9 = 0 → count81 (Mask.row i).view = 9)
  ∧ (∀ i, i < 9 → count81 (Mask.column i).view = 9) := by decide

/-- Witness for C8's amended theorem at sample valid indices. -/
theorem C8_shape_masks_witness :
    count81 (Mask.cell 27).view = 9 ∧ count81 (Mask.row 72).view = 9
  ∧ count81 (Mask.column 0).view = 9 :=
  ⟨C8_shape_masks.2.2.2.1 27 (by decide), C8_shape_masks.2.2.2.2.1 72 (by decide) (by decide),
   C8_shape_masks.2.2.2.2.2 0 (by decide)⟩

/-- C9 counterexample: `update` is not idempotent — repeating
`update(1,0)` on the fresh puzzle changes the state (the placed index is
recorded twice), observably so: `Row(1)`'s placement count for the digit
becomes 2 (the corrupt-layer fault) instead of 1; and two updates of the
same digit at different cells do not commute as states either. -/
theorem C9_update_counterexample :
    ((freshPuzzle.update 1 0).update 1 0 ≠ freshPuzzle.update 1 0)
  ∧ (Row.new 1).count_layer_positions
      (((freshPuzzle.update 1 0).update 1 0).layers.getD 0 (Layer.new 1)) = 2
  ∧ (Row.new 1).count_layer_positions
      ((freshPuzzle.update 1 0).layers.getD 0 (Layer.new 1)) = 1
  ∧ ((freshPuzzle.update 1 0).update 1 1 ≠ (freshPuzzle.update 1 1).update 1 0) := by
  decide

/-- C9 (amended): a repeated `update(v,i)` leaves every layer's blocked
mask and the readout unchanged (though not the duplicated
`placedIndices` bookkeeping); updates of distinct digits commute as
whole states; and updates of one digit at two cells commute up to
blocked masks and readout. -/
theorem C9_update_algebra :
    (∀ (p : Puzzle) (v i : Nat),
        ((p.update v i).update v i).layers.map Layer.mask
          = (p.update v i).layers.map Layer.mask
      ∧ ((p.update v i).update v i).readout = (p.update v i).readout)
  ∧ (∀ (p : Puzzle) (v1 i1 v2 i2 : Nat), v1 ≠ v2 →
        (p.update v1 i1).update v2 i2 = (p.update v2 i2).update v1 i1)
  ∧ (∀ (p : Puzzle) (v i1 i2 : Nat),
        ((p.update v i1).update v i2).layers.map Layer.mask
          = ((p.update v i2).update v i1).layers.map Layer.mask
      ∧ ((p.update v i1).update v i2).readout = ((p.update v i2).update v i1).readout) :=
  ⟨fun p v i => ⟨masks_update_update p v i, readout_update_update p v i⟩,
   fun p v1 i1 v2 i2 h => update_comm_distinct p v1 i1 v2 i2 h,
   fun p v i1 i2 => ⟨masks_update_swap p v i1 i2, readout_update_swap p v i1 i2⟩⟩

/-- Witness for C9's amended theorem: distinct digits commute exactly. -/
theorem C9_update_algebra_witness :
    (freshPuzzle.update 1 0).update 2 1 = (freshPuzzle.update 2 1).update 1 0 :=
  C9_update_algebra.2.1 freshPuzzle 1 0 2 1 (by decide)

/-- C10: for every board index `i < 81`, the arguments `occupy` passes to
the three mask factories satisfy the factories' assertions, so those
assertion branches are unreachable from `occupy` on in-range indices. -/
theorem C10_occupy_mask_args :
    ∀ i, i < 81 → Mask.cellPre (occupyCellArg i) ∧ Mask.rowPre (occupyRowArg i)
      ∧ Mask.columnPre (occupyColArg i) := by decide

/-- Witness for C10 at board index 80. -/
theorem C10_occupy_mask_args_witness :
    Mask.cellPre (occupyCellArg 80) ∧ Mask.rowPre (occupyRowArg 80)
      ∧ Mask.columnPre (occupyColArg 80) :=
  C10_occupy_mask_args 80 (by decide)

/-- Witness for C2 at the first row segment and a fresh layer. -/
theorem C2_locate_iff_witness : locateSpec (Seg.row 0) (Layer.new 1) :=
  C2_locate_iff (Seg.row 0) (by decide) (Layer.new 1)
